import Mathlib

/-!
Formal model of the digital-square message core (Go backend), shallowly
embedded in Lean 4.  Machine state that lives in PostgreSQL, Redis or the
WAL file is modelled as explicit functional state; timestamps and Redis
TTLs are natural numbers; UUID generation and the wall clock are passed
in as parameters.  Each definition mirrors one Go function:

* wal.WAL (src/unnamed/part_007, second revision: Write, GetAllEntries,
  Cleanup with close/rename/reopen) - the file content at the entry level;
* broker.RedisMessageBroker (redis_broker.go: CacheMessage = LPUSH +
  LTRIM 0 99, GetRecentMessages = LRANGE 0 (limit-1)) - a Lean list with
  head = Redis index 0;
* repository.MessageRepository (src/unnamed/part_006) over the
  models.Message table (src/unnamed/part_004: uint64 autoincrement id,
  unique index on message_id, gorm soft-delete scope on deleted_at);
* service.MessageService (message_service.go, the logger revision:
  validateMessageContent, SendMessage, GetRecentMessages,
  GetMessagesBefore, DeleteMessage, processBatch);
* middleware.RateLimiter (src/unnamed/part_001: CheckLimit over a Redis
  INCR/EXPIRE/TTL counter);
* handler.WebSocketHandler (websocket_handler.go: broadcastToAll,
  handleSendMessage, sendInitialMessages) and handler.MessageHandler
  (src/unnamed/part_009: filterMessages).
-/

/-- models.Message (src/unnamed/part_004, plus the denormalized Username
field used by the service and handlers).  id is the uint64 autoincrement
primary key (the internal sequence number), messageID the uuid stable
identifier (unique index), deletedAt the gorm soft-delete column. -/
structure Message where
  id : Nat
  messageID : String
  userID : String
  username : String
  content : String
  createdAt : Nat
  deletedAt : Option Nat := none
  deletedBy : Option String := none
  isDeletedByAdmin : Bool := false
deriving Repr, DecidableEq

/-- wal.WALEntry: message_id, user_id, content, timestamp. -/
structure WALEntry where
  messageID : String
  userID : String
  content : String
  timestamp : Nat
deriving Repr, DecidableEq

/-!
## Append log (wal.WAL)

The WAL file is modelled by the list of entries its lines decode to, in
file order.  Write appends one line and fsyncs; Cleanup rewrites the
file through a temp file, renames it over the old one and reopens the
handle, so a subsequent Write appends to the compacted file.
-/

/-- WAL.Write: append one entry at the end of the file. -/
def walWrite (w : List WALEntry) (e : WALEntry) : List WALEntry :=
  w ++ [e]

/-- WAL.Cleanup: keep exactly the entries whose message_id is not in
persistedIDs, in their original order (the filtered rewrite). -/
def walCleanup (w : List WALEntry) (persistedIDs : List String) : List WALEntry :=
  w.filter (fun e => !(persistedIDs.contains e.messageID))

/-- WAL.GetAllEntries (= ReadAll): the decoded file content. -/
def walGetAllEntries (w : List WALEntry) : List WALEntry :=
  w

/-- A sequence of WAL.Write calls starting from a given file state. -/
def walAppendAll (w : List WALEntry) (es : List WALEntry) : List WALEntry :=
  es.foldl walWrite w

/-!
## Hot cache (broker.RedisMessageBroker)

The Redis list global:recent, head first (Redis index 0 = list head).
-/

/-- CacheMessage: LPUSH the message then LTRIM 0 99, so the list keeps
at most 100 elements with the most recently pushed at the head. -/
def cachePush (cache : List Message) (msg : Message) : List Message :=
  (msg :: cache).take 100

/-- GetRecentMessages on the broker: LRANGE 0 (limit-1), i.e. the first
limit elements of the list (limit is positive at every call site). -/
def cacheRecent (cache : List Message) (limit : Nat) : List Message :=
  cache.take limit

/-- The cache warm-up loop of MessageService.GetRecentMessages:
for each message of ms in slice order, broker.CacheMessage(msg). -/
def warmCache (cache : List Message) (ms : List Message) : List Message :=
  ms.foldl cachePush cache

/-!
## Long-term store (repository.MessageRepository)

The messages table is a list of rows in insertion order together with
the next autoincrement id.  gorm's soft-delete scope hides rows whose
deleted_at is set from every query that does not use Unscoped.
-/

/-- One PostgreSQL messages table with its autoincrement counter. -/
structure Store where
  rows : List Message
  nextSeq : Nat
deriving Repr, DecidableEq

/-- Insertion into descending created_at order (ORDER BY created_at DESC);
on equal timestamps the earlier row stays first. -/
def insertTimeDesc (m : Message) : List Message → List Message
  | [] => [m]
  | x :: xs => if m.createdAt ≤ x.createdAt then x :: insertTimeDesc m xs
               else m :: x :: xs

/-- ORDER BY created_at DESC over a list of rows. -/
def sortTimeDesc : List Message → List Message
  | [] => []
  | x :: xs => insertTimeDesc x (sortTimeDesc xs)

/-- GetMessagesBefore: WHERE id < beforeID (soft-deleted rows excluded by
the gorm scope) ORDER BY created_at DESC LIMIT limit. -/
def getMessagesBefore (tbl : List Message) (beforeID : Nat) (limit : Nat) :
    List Message :=
  (sortTimeDesc (tbl.filter
      (fun m => m.deletedAt.isNone && decide (m.id < beforeID)))).take limit

/-- GetRecentMessages on the repository: ORDER BY created_at DESC LIMIT
limit, soft-deleted rows excluded by the gorm scope. -/
def getRecentRows (tbl : List Message) (limit : Nat) : List Message :=
  (sortTimeDesc (tbl.filter (fun m => m.deletedAt.isNone))).take limit

/-- GetByMessageID: WHERE message_id = ? plus the gorm soft-delete scope;
First returns the earliest matching row. -/
def getByMessageID (tbl : List Message) (mid : String) : Option Message :=
  tbl.find? (fun m => m.deletedAt.isNone && (m.messageID == mid))

/-- SoftDeleteMessage: UPDATE ... WHERE id = ? setting deleted_at,
deleted_by and is_deleted_by_admin. -/
def softDeleteMessage (tbl : List Message) (rowID : Nat) (deleter : String)
    (byAdmin : Bool) (now : Nat) : List Message :=
  tbl.map (fun m =>
    if m.id = rowID then
      { m with deletedAt := some now, deletedBy := some deleter,
               isDeletedByAdmin := byAdmin }
    else m)

/-- Whether some row of the table already carries this stable id
(the unique index on message_id, deleted rows included). -/
def hasMessageID (rows : List Message) (mid : String) : Bool :=
  rows.any (fun m => m.messageID == mid)

/-- One INSERT inside the batch transaction: a row whose message_id
collides with the unique index aborts with an error, otherwise the row
is appended with the next autoincrement id. -/
def insertOne (st : Store) (m : Message) : Option Store :=
  if hasMessageID st.rows m.messageID then none
  else some ⟨st.rows ++ [{ m with id := st.nextSeq }], st.nextSeq + 1⟩

/-- The INSERTs of one CreateInBatches transaction, aborting at the first
unique-index violation. -/
def insertAll (st : Store) : List Message → Option Store
  | [] => some st
  | m :: ms =>
    match insertOne st m with
    | none => none
    | some st2 => insertAll st2 ms

/-- BatchInsert: returns nil at once on an empty slice, otherwise runs
CreateInBatches in one transaction; any unique-index violation rolls the
whole transaction back and surfaces the error. -/
def batchInsert (st : Store) (ms : List Message) : Except Unit Store :=
  if ms.isEmpty then .ok st
  else
    match insertAll st ms with
    | none => .error ()
    | some st2 => .ok st2

/-!
## Message service (service.MessageService)
-/

inductive SendError
  | tooShort
  | tooLong
deriving Repr, DecidableEq

/-- validateMessageContent: empty is rejected, then the Unicode
code-point count must be at most 5000 and at least 1. -/
def validateMessageContent (content : String) : Option SendError :=
  if content = "" then some .tooShort
  else if 5000 < content.length then some .tooLong
  else if content.length < 1 then some .tooShort
  else none

/-- The apostrophe character (code point 39), escaped by Go html. -/
def aposChar : Char := Char.ofNat 39

/-- The double-quote character (code point 34), escaped by Go html. -/
def quoteChar : Char := Char.ofNat 34

/-- One character of Go html.EscapeString: the five HTML-significant
characters are replaced by their entities. -/
def escapeChar (c : Char) : List Char :=
  if c = '&' then ['&', 'a', 'm', 'p', ';']
  else if c = aposChar then ['&', '#', '3', '9', ';']
  else if c = '<' then ['&', 'l', 't', ';']
  else if c = '>' then ['&', 'g', 't', ';']
  else if c = quoteChar then ['&', '#', '3', '4', ';']
  else [c]

/-- Go html.EscapeString over a whole string. -/
def escapeString (s : String) : String :=
  String.mk (s.data.flatMap escapeChar)

/-- SendMessage up to its WAL write: validate, sanitize, build the
models.Message and the wal.WALEntry that are cached, broadcast, logged
and returned.  The generated uuid and the wall clock are parameters. -/
def sendMessage (messageID : String) (now : Nat) (userID username content : String) :
    Except SendError (Message × WALEntry) :=
  match validateMessageContent content with
  | some e => .error e
  | none =>
    let sanitized := escapeString content
    let msg : Message :=
      { id := 0, messageID := messageID, userID := userID,
        username := username, content := sanitized, createdAt := now }
    let entry : WALEntry :=
      { messageID := messageID, userID := userID, content := sanitized,
        timestamp := now }
    .ok (msg, entry)

/-- MessageService.GetRecentMessages: serve from the Redis cache when it
is non-empty, otherwise read the store and warm the cache with the rows
just read (in slice order, newest first).  Returns the reply and the
cache state after the warm-up goroutine has run. -/
def serviceGetRecent (cache : List Message) (tbl : List Message) (limit : Nat) :
    List Message × List Message :=
  let cached := cacheRecent cache limit
  if cached.isEmpty then
    let messages := getRecentRows tbl limit
    (messages, if messages.isEmpty then cache else warmCache cache messages)
  else
    (cached, cache)

inductive DeleteResult
  | notFound
  | unauthorized
  | ok
deriving Repr, DecidableEq

/-- MessageService.DeleteMessage: look the stable id up (any lookup
failure becomes ErrMessageNotFound), refuse a non-admin deleting someone
else's message, otherwise soft-delete recording the requester and the
admin flag.  Returns the outcome and the table afterwards. -/
def deleteMessage (tbl : List Message) (mid : String) (userID : String)
    (isAdmin : Bool) (now : Nat) : DeleteResult × List Message :=
  match getByMessageID tbl mid with
  | none => (.notFound, tbl)
  | some msg =>
    if !isAdmin && !(msg.userID == userID) then (.unauthorized, tbl)
    else (.ok, softDeleteMessage tbl msg.id userID isAdmin now)

/-- The state the batch drainer acts on: the store and the WAL file. -/
structure DrainState where
  store : Store
  walEntries : List WALEntry
deriving Repr, DecidableEq

/-- processBatch translates a WAL entry to a models.Message exactly as
the Go loop does (id zero until the insert assigns it; Username is not
carried by the WAL). -/
def entryToMessage (e : WALEntry) : Message :=
  { id := 0, messageID := e.messageID, userID := e.userID, username := "",
    content := e.content, createdAt := e.timestamp }

/-- MessageService.processBatch: read the WAL; if empty do nothing;
otherwise BatchInsert the translated messages and, only on success,
Cleanup the WAL with the batch ids.  On any failure the cycle aborts
with both the store and the WAL unchanged. -/
def processBatch (s : DrainState) : DrainState :=
  if s.walEntries.isEmpty then s
  else
    let messages := s.walEntries.map entryToMessage
    let messageIDs := s.walEntries.map (fun e => e.messageID)
    match batchInsert s.store messages with
    | .error _ => s
    | .ok st2 => ⟨st2, walCleanup s.walEntries messageIDs⟩

/-!
## Rate limiter (middleware.RateLimiter)

The Redis counter for one address is none when the key is absent or
expired, or some (count, expiry) with an absolute expiry instant; a key
is live at time t exactly when t < expiry.
-/

structure RateLimiterConfig where
  maxRequests : Nat
  window : Nat
deriving Repr, DecidableEq

/-- The Redis key ratelimit:ip for one fixed address. -/
abbrev CounterState := Option (Nat × Nat)

/-- CheckLimit when INCR finds no live key: the key is created at count
1, EXPIRE sets its TTL to the window, and the count is checked against
MaxRequests (refusing with the remaining TTL when it exceeds it). -/
def freshCheck (cfg : RateLimiterConfig) (t : Nat) : (Bool × Nat) × CounterState :=
  if cfg.maxRequests < 1 then ((false, t + cfg.window - t), some (1, t + cfg.window))
  else ((true, 0), some (1, t + cfg.window))

/-- CheckLimit at time t: INCR (creating the key at 1 when absent or
expired), EXPIRE window on a fresh key, then refuse with the remaining
TTL when the count exceeds MaxRequests.  Returns ((allowed, retryAfter),
key state afterwards). -/
def checkLimit (cfg : RateLimiterConfig) (t : Nat) (s : CounterState) :
    (Bool × Nat) × CounterState :=
  match s with
  | some (c, exp) =>
    if t < exp then
      if cfg.maxRequests < c + 1 then ((false, exp - t), some (c + 1, exp))
      else ((true, 0), some (c + 1, exp))
    else freshCheck cfg t
  | none => freshCheck cfg t

/-- The key state after the first n checks, the i-th check arriving at
time times i, starting from an absent key. -/
def runChecks (cfg : RateLimiterConfig) (times : Nat → Nat) : Nat → CounterState
  | 0 => none
  | n + 1 => (checkLimit cfg (times n) (runChecks cfg times n)).2

/-!
## Transport handlers (handler.WebSocketHandler, handler.MessageHandler)

Connections are identified by opaque handles (naturals).  The shared
WSResponse struct of the Go handler carries message, ack and delete
frames alike.
-/

/-- handler.WSResponse, with the timestamp as a number. -/
structure WSResponse where
  type : String
  id : Nat := 0
  messageID : String := ""
  userID : String := ""
  username : String := ""
  content : String := ""
  timestamp : Nat := 0
  error : String := ""
  deleted : Bool := false
  deletedByAdmin : Bool := false
  tempID : String := ""
  status : String := ""
deriving Repr, DecidableEq

/-- broadcastToAll: under the shared lock, write the frame to every
registered connection (the sender's own included). -/
def broadcastToAll (clients : List Nat) (frame : WSResponse) :
    List (Nat × WSResponse) :=
  clients.map (fun c => (c, frame))

/-- The message frame handleSendMessage broadcasts for an accepted
message. -/
def messageFrame (senderUID senderName : String) (msg : Message) : WSResponse :=
  { type := "message", id := msg.id, messageID := msg.messageID,
    userID := senderUID, username := senderName, content := msg.content,
    timestamp := msg.createdAt }

/-- sendAck: the ack frame, with the error text only on an error ack. -/
def ackFrame (tempID messageID status errorMsg : String) : WSResponse :=
  { type := "ack", tempID := tempID, messageID := messageID, status := status,
    error := if status = "error" then errorMsg else "" }

/-- handleSendMessage: reject empty content with an error ack, run
SendMessage (any failure acks an error to the sender only), then
broadcast the message frame to every client and ack success to the
sender.  Returns the list of (connection, frame) writes. -/
def handleSendMessage (clients : List Nat) (sender : Nat)
    (senderUID senderName : String) (tempID content : String)
    (messageID : String) (now : Nat) : List (Nat × WSResponse) :=
  if content = "" then
    [(sender, ackFrame tempID "" "error" "content cannot be empty")]
  else
    match sendMessage messageID now senderUID senderName content with
    | .error _ => [(sender, ackFrame tempID "" "error" "failed to write to WAL")]
    | .ok (msg, _) =>
      broadcastToAll clients (messageFrame senderUID senderName msg) ++
        [(sender, ackFrame tempID msg.messageID "success" "")]

/-- The canonical tombstone placeholder for non-moderator readers. -/
def placeholderContent (byAdmin : Bool) : String :=
  if byAdmin then "This message was deleted by admin"
  else "This message was deleted"

/-- One frame of sendInitialMessages: deleted content is masked for
non-admin readers, the deleted and deleted_by_admin flags are always
carried. -/
def initialFrame (isAdmin : Bool) (msg : Message) : WSResponse :=
  let deleted := msg.deletedAt.isSome
  let content :=
    if deleted && !isAdmin then placeholderContent msg.isDeletedByAdmin
    else msg.content
  { type := "message", id := msg.id, messageID := msg.messageID,
    userID := msg.userID, username := msg.username, content := content,
    timestamp := msg.createdAt, deleted := deleted,
    deletedByAdmin := msg.isDeletedByAdmin }

/-- sendInitialMessages walks the recent list backwards (oldest sent
first) and emits one frame per message. -/
def sendInitialFrames (isAdmin : Bool) (messages : List Message) :
    List WSResponse :=
  messages.reverse.map (initialFrame isAdmin)

/-- One JSON object of MessageHandler.filterMessages: the optional keys
deleted_by_admin and deleted_by are present only when added. -/
structure FilteredMessage where
  id : Nat
  messageID : String
  userID : String
  username : String
  content : String
  createdAt : Nat
  deleted : Bool
  deletedByAdmin : Option Bool := none
  deletedBy : Option (Option String) := none
deriving Repr, DecidableEq

/-- MessageHandler.filterMessages on one message: admins get the
original content plus the deletion metadata, other readers get the
placeholder content. -/
def filterMessage (isAdmin : Bool) (msg : Message) : FilteredMessage :=
  let base : FilteredMessage :=
    { id := msg.id, messageID := msg.messageID, userID := msg.userID,
      username := msg.username, content := msg.content,
      createdAt := msg.createdAt, deleted := msg.deletedAt.isSome }
  if msg.deletedAt.isSome then
    if isAdmin then
      { base with deletedByAdmin := some msg.isDeletedByAdmin,
                  deletedBy := some msg.deletedBy }
    else
      { base with content := placeholderContent msg.isDeletedByAdmin }
  else base

/-- MessageHandler.filterMessages over the page. -/
def filterMessages (isAdmin : Bool) (msgs : List Message) :
    List FilteredMessage :=
  msgs.map (filterMessage isAdmin)

/-!
## Concrete sample data

Small fixed rows, tables and WAL entries used by the concrete
evaluations below.
-/

/-- A message tombstoned by a moderator. -/
def mTomb : Message :=
  { id := 1, messageID := "m1", userID := "u1", username := "alice",
    content := "hello", createdAt := 3, deletedAt := some 9,
    deletedBy := some "u2", isDeletedByAdmin := true }

/-- A live message by user u1. -/
def mAlice : Message :=
  { id := 1, messageID := "m1", userID := "u1", username := "alice",
    content := "hello", createdAt := 3 }

/-- An older stored message (sequence 1, created at 1). -/
def mOld : Message :=
  { id := 1, messageID := "a", userID := "u1", username := "alice",
    content := "first", createdAt := 1 }

/-- A newer stored message (sequence 2, created at 2). -/
def mNew : Message :=
  { id := 2, messageID := "b", userID := "u1", username := "alice",
    content := "second", createdAt := 2 }

/-- Store row with sequence 1 but the latest creation time 10. -/
def rowA : Message :=
  { id := 1, messageID := "a", userID := "u1", username := "alice",
    content := "ca", createdAt := 10 }

/-- Store row with sequence 2 but the earliest creation time 5. -/
def rowB : Message :=
  { id := 2, messageID := "b", userID := "u1", username := "alice",
    content := "cb", createdAt := 5 }

/-- Store row with sequence 3 and the middle creation time 7. -/
def rowC : Message :=
  { id := 3, messageID := "c", userID := "u1", username := "alice",
    content := "cc", createdAt := 7 }

/-- Store rows whose creation times increase with their sequence. -/
def wRowA : Message :=
  { id := 1, messageID := "a", userID := "u1", username := "alice",
    content := "ca", createdAt := 5 }

def wRowB : Message :=
  { id := 2, messageID := "b", userID := "u1", username := "alice",
    content := "cb", createdAt := 7 }

def wRowC : Message :=
  { id := 3, messageID := "c", userID := "u1", username := "alice",
    content := "cc", createdAt := 9 }

/-- A store that already holds the drained copy of message "a". -/
def storeDup : Store :=
  { rows := [{ id := 1, messageID := "a", userID := "u1", username := "",
               content := "hi", createdAt := 1 }],
    nextSeq := 2 }

/-- A WAL still holding entry "a" (crash before Cleanup). -/
def walDup : List WALEntry :=
  [{ messageID := "a", userID := "u1", content := "hi", timestamp := 1 }]

/-- The message SendMessage builds for content "hi" at time 0. -/
def mHi : Message :=
  { id := 0, messageID := "m", userID := "u", username := "n",
    content := escapeString "hi", createdAt := 0 }

/-- The WAL entry SendMessage builds for content "hi" at time 0. -/
def eHi : WALEntry :=
  { messageID := "m", userID := "u", content := escapeString "hi",
    timestamp := 0 }

/-!
## Helper lemmas
-/

theorem walAppendAll_nil_eq (es : List WALEntry) : walAppendAll [] es = es := by
  have h : ∀ (w : List WALEntry), walAppendAll w es = w ++ es := by
    induction es with
    | nil => intro w; simp [walAppendAll]
    | cons e es ih =>
      intro w
      simpa [walAppendAll, walWrite, List.foldl_cons] using
        (ih (w ++ [e])).trans (by simp)
  simpa using h []

theorem take_append_take (a b : List Message) (k : Nat) :
    (a ++ b.take k).take k = (a ++ b).take k := by
  rw [List.take_append_eq_append_take, List.take_append_eq_append_take,
    List.take_take, Nat.min_eq_left (Nat.sub_le _ _)]

theorem foldl_cachePush_eq (ms : List Message) :
    ∀ (c : List Message), c.length ≤ 100 →
      ms.foldl cachePush c = (ms.reverse ++ c).take 100 := by
  induction ms with
  | nil =>
    intro c hc
    simpa using (List.take_of_length_le hc).symm
  | cons m ms ih =>
    intro c hc
    have hlen : ((m :: c).take 100).length ≤ 100 := by
      simp
    calc (m :: ms).foldl cachePush c
        = ms.foldl cachePush ((m :: c).take 100) := by
          simp [cachePush]
      _ = (ms.reverse ++ (m :: c).take 100).take 100 := ih _ hlen
      _ = (ms.reverse ++ (m :: c)).take 100 := take_append_take _ _ _
      _ = ((m :: ms).reverse ++ c).take 100 := by simp

/-!
## C2: log compaction correctness
-/

/-- C2.  After appending entries e1..en to an empty WAL and running
Cleanup with the persisted-id set S, GetAllEntries returns exactly the
appended entries whose message id is not in S, in append order; a
further Write appends one more entry which GetAllEntries then also
returns, at the end. -/
theorem wal_cleanup_correct (es : List WALEntry) (S : List String) (e : WALEntry) :
    walGetAllEntries (walCleanup (walAppendAll [] es) S) =
      es.filter (fun x => !(S.contains x.messageID)) ∧
    walGetAllEntries (walWrite (walCleanup (walAppendAll [] es) S) e) =
      es.filter (fun x => !(S.contains x.messageID)) ++ [e] := by
  rw [walAppendAll_nil_eq]
  exact ⟨rfl, rfl⟩

/-!
## C9: cache bound and contents
-/

/-- C9.  After any sequence of CacheMessage pushes on an initially empty
cache, the cache holds at most 100 messages, exactly min (length, 100)
of them, and its contents are the most recently pushed messages in
reverse push order (most recent at the head): the take-100 prefix of
the reversed push sequence. -/
theorem cache_bound_last_pushed (ms : List Message) :
    (ms.foldl cachePush []).length ≤ 100 ∧
    (ms.foldl cachePush []).length = min ms.length 100 ∧
    ms.foldl cachePush [] = ms.reverse.take 100 := by
  have h := foldl_cachePush_eq ms [] (by simp)
  refine ⟨?_, ?_, by simpa using h⟩
  · rw [h]; simp
  · rw [h]; simp [Nat.min_comm]

/-!
## C3: content escaping and length bounds
-/

theorem escapeChar_length_le (c : Char) : (escapeChar c).length ≤ 5 := by
  unfold escapeChar
  split_ifs <;> simp

theorem escapeChar_length_pos (c : Char) : 1 ≤ (escapeChar c).length := by
  unfold escapeChar
  split_ifs <;> simp

theorem flatMap_escapeChar_length_le (l : List Char) :
    (l.flatMap escapeChar).length ≤ 5 * l.length := by
  induction l with
  | nil => simp
  | cons c l ih =>
    have h1 := escapeChar_length_le c
    simp only [List.flatMap_cons, List.length_append, List.length_cons]
    omega

theorem flatMap_escapeChar_length_pos (l : List Char) (h : l ≠ []) :
    1 ≤ (l.flatMap escapeChar).length := by
  cases l with
  | nil => exact absurd rfl h
  | cons c l =>
    have h1 := escapeChar_length_pos c
    simp only [List.flatMap_cons, List.length_append]
    omega

theorem escapeChar_lt_eval : escapeChar '<' = ['&', 'l', 't', ';'] := by
  decide

theorem flatMap_escapeChar_replicate_lt (n : Nat) :
    ((List.replicate n '<').flatMap escapeChar).length = 4 * n := by
  induction n with
  | zero => simp
  | succ n ih =>
    simp only [List.replicate_succ, List.flatMap_cons, List.length_append, ih,
      escapeChar_lt_eval]
    simp
    omega

/-- C3, amended.  Every message the service accepts carries, in the
returned message and in the WAL entry (hence in the cache, the log and
the store), exactly the HTML-escaped form of the submitted text; the
submitted text has between 1 and 5000 code points, and the stored
escaped content has at least 1 and at most 5 times that many code
points (so up to 25000, not 5000). -/
theorem send_content_escaped_bounds (mid : String) (now : Nat)
    (uid uname content : String)
    (h : validateMessageContent content = none) :
    ∃ msg entry, sendMessage mid now uid uname content = .ok (msg, entry) ∧
      msg.content = escapeString content ∧
      entry.content = escapeString content ∧
      1 ≤ content.length ∧ content.length ≤ 5000 ∧
      1 ≤ msg.content.length ∧
      msg.content.length ≤ 5 * content.length := by
  unfold validateMessageContent at h
  split_ifs at h with h1 h2 h3
  refine ⟨{ id := 0, messageID := mid, userID := uid, username := uname,
            content := escapeString content, createdAt := now },
          { messageID := mid, userID := uid, content := escapeString content,
            timestamp := now }, ?_, rfl, rfl, ?_, ?_, ?_, ?_⟩
  · simp [sendMessage, validateMessageContent, h1, h2, h3]
  · omega
  · omega
  · have hd : content.data ≠ [] := by
      intro hnil
      have hz : content.length = 0 := by
        show content.data.length = 0
        rw [hnil]
        rfl
      omega
    exact flatMap_escapeChar_length_pos content.data hd
  · exact flatMap_escapeChar_length_le content.data

/-- C3 witness: a concrete accepted send. -/
theorem send_content_escaped_bounds_witness :
    ∃ msg entry, sendMessage "m" 0 "u" "n" "hi" = .ok (msg, entry) ∧
      msg.content = escapeString "hi" ∧
      entry.content = escapeString "hi" ∧
      1 ≤ ("hi" : String).length ∧ ("hi" : String).length ≤ 5000 ∧
      1 ≤ msg.content.length ∧
      msg.content.length ≤ 5 * ("hi" : String).length :=
  send_content_escaped_bounds "m" 0 "u" "n" "hi" (by decide)

/-- C3 counterexample: 1300 left-angle-bracket characters pass
validation (1300 code points), but the stored escaped content has 5200
code points, refuting the claim that stored content has at most 5000. -/
theorem send_escaped_content_exceeds_5000 :
    validateMessageContent (String.mk (List.replicate 1300 '<')) = none ∧
    (escapeString (String.mk (List.replicate 1300 '<'))).length = 5200 ∧
    ¬ (escapeString (String.mk (List.replicate 1300 '<'))).length ≤ 5000 := by
  have hlen : (String.mk (List.replicate 1300 '<')).length = 1300 := by
    show (List.replicate 1300 '<').length = 1300
    rw [List.length_replicate]
  have hesc : (escapeString (String.mk (List.replicate 1300 '<'))).length = 5200 := by
    show ((List.replicate 1300 '<').flatMap escapeChar).length = 5200
    rw [flatMap_escapeChar_replicate_lt]
  have hne : String.mk (List.replicate 1300 '<') ≠ "" := by
    intro hcon
    have : (String.mk (List.replicate 1300 '<')).length = 0 := by
      rw [hcon]; rfl
    omega
  refine ⟨?_, hesc, by omega⟩
  unfold validateMessageContent
  rw [if_neg hne, hlen]
  norm_num

/-!
## C7: tombstone visibility on the read paths
-/

/-- C7.  For every tombstoned message, on both read paths (the initial
backfill frames of sendInitialMessages and the pagination entries of
filterMessages): a non-moderator reader gets the canonical placeholder,
"This message was deleted" for a user delete and "This message was
deleted by admin" for a moderator delete, with the deleted flag set; a
moderator reader gets the original content together with the deletion
metadata. -/
theorem tombstone_visibility (msg : Message)
    (h : msg.deletedAt.isSome = true) :
    placeholderContent true = "This message was deleted by admin" ∧
    placeholderContent false = "This message was deleted" ∧
    (initialFrame false msg).content = placeholderContent msg.isDeletedByAdmin ∧
    (initialFrame false msg).deleted = true ∧
    (initialFrame true msg).content = msg.content ∧
    (initialFrame true msg).deleted = true ∧
    (initialFrame true msg).deletedByAdmin = msg.isDeletedByAdmin ∧
    (filterMessage false msg).content = placeholderContent msg.isDeletedByAdmin ∧
    (filterMessage false msg).deleted = true ∧
    (filterMessage true msg).content = msg.content ∧
    (filterMessage true msg).deletedByAdmin = some msg.isDeletedByAdmin ∧
    (filterMessage true msg).deletedBy = some msg.deletedBy := by
  refine ⟨rfl, rfl, ?_⟩
  simp [initialFrame, filterMessage, h]

/-- C7 witness: a concrete moderator-deleted message. -/
theorem tombstone_visibility_witness :
    (initialFrame false mTomb).content = "This message was deleted by admin" ∧
    (initialFrame false mTomb).deleted = true ∧
    (initialFrame true mTomb).content = "hello" ∧
    (filterMessage false mTomb).content = "This message was deleted by admin" ∧
    (filterMessage true mTomb).content = "hello" ∧
    (filterMessage true mTomb).deletedByAdmin = some true := by
  have h := tombstone_visibility mTomb rfl
  exact ⟨h.2.2.1, h.2.2.2.1, h.2.2.2.2.1, h.2.2.2.2.2.2.2.1,
    h.2.2.2.2.2.2.2.2.2.1, h.2.2.2.2.2.2.2.2.2.2.1⟩

/-!
## C6: delete semantics
-/

/-- C6.  DeleteMessage returns not-found when no visible stored row has
the stable id (in particular when the message still sits only in the
append log, which the delete path never consults); it returns the
forbidden outcome exactly when the requester is neither a moderator nor
the author, leaving the table unchanged; otherwise it soft-deletes the
row, recording the requester as deleter and the moderator flag. -/
theorem delete_message_semantics (tbl : List Message) (mid uid : String)
    (isAdmin : Bool) (now : Nat) :
    (getByMessageID tbl mid = none →
      deleteMessage tbl mid uid isAdmin now = (.notFound, tbl)) ∧
    (∀ msg, getByMessageID tbl mid = some msg →
      (((deleteMessage tbl mid uid isAdmin now).1 = .unauthorized) ↔
        (isAdmin = false ∧ msg.userID ≠ uid)) ∧
      (isAdmin = false → msg.userID ≠ uid →
        deleteMessage tbl mid uid isAdmin now = (.unauthorized, tbl)) ∧
      ((isAdmin = true ∨ msg.userID = uid) →
        deleteMessage tbl mid uid isAdmin now =
          (.ok, softDeleteMessage tbl msg.id uid isAdmin now) ∧
        ∀ r ∈ tbl, r.id = msg.id →
          ({ r with deletedAt := some now, deletedBy := some uid,
                    isDeletedByAdmin := isAdmin } : Message) ∈
            (deleteMessage tbl mid uid isAdmin now).2)) := by
  refine ⟨fun h => by simp [deleteMessage, h], fun msg hmsg => ⟨?_, ?_, ?_⟩⟩
  · by_cases ha : isAdmin
    · simp [deleteMessage, hmsg, ha]
    · by_cases hu : msg.userID = uid
      · simp [deleteMessage, hmsg, ha, hu]
      · simp [deleteMessage, hmsg, ha, hu]
  · intro ha hu
    simp [deleteMessage, hmsg, ha, hu]
  · intro hcase
    have hres : deleteMessage tbl mid uid isAdmin now =
        (.ok, softDeleteMessage tbl msg.id uid isAdmin now) := by
      rcases hcase with ha | hu
      · simp [deleteMessage, hmsg, ha]
      · simp [deleteMessage, hmsg, hu]
    refine ⟨hres, fun r hr hid => ?_⟩
    rw [hres]
    show _ ∈ softDeleteMessage tbl msg.id uid isAdmin now
    unfold softDeleteMessage
    exact List.mem_map.mpr ⟨r, hr, by rw [if_pos hid]⟩

/-- C6 witness: the author deletes their own stored message. -/
theorem delete_message_semantics_witness :
    deleteMessage [mAlice] "m1" "u1" false 9 =
      (.ok, softDeleteMessage [mAlice] 1 "u1" false 9) :=
  (((delete_message_semantics [mAlice] "m1" "u1" false 9).2 mAlice
    (by decide)).2.2 (Or.inr rfl)).1

/-!
## C10: broadcast fan-out includes the sender
-/

/-- C10.  On a successful send over the WebSocket interface, the
broadcast message frame is written to every registered connection, the
sender's own connection included, and the sender additionally receives
the success ack frame. -/
theorem broadcast_includes_sender (clients : List Nat) (sender : Nat)
    (senderUID senderName tempID content messageID : String) (now : Nat)
    (hmem : sender ∈ clients)
    (hv : validateMessageContent content = none) :
    ∀ msg entry,
      sendMessage messageID now senderUID senderName content = .ok (msg, entry) →
      (∀ c ∈ clients,
        (c, messageFrame senderUID senderName msg) ∈
          handleSendMessage clients sender senderUID senderName tempID content
            messageID now) ∧
      (sender, messageFrame senderUID senderName msg) ∈
        handleSendMessage clients sender senderUID senderName tempID content
          messageID now ∧
      (sender, ackFrame tempID msg.messageID "success" "") ∈
        handleSendMessage clients sender senderUID senderName tempID content
          messageID now := by
  intro msg entry hok
  have hne : content ≠ "" := by
    intro hc
    rw [hc] at hv
    simp [validateMessageContent] at hv
  have hw : handleSendMessage clients sender senderUID senderName tempID content
      messageID now =
      broadcastToAll clients (messageFrame senderUID senderName msg) ++
        [(sender, ackFrame tempID msg.messageID "success" "")] := by
    simp [handleSendMessage, hne, hok]
  refine ⟨?_, ?_, ?_⟩
  · intro c hc
    rw [hw]
    exact List.mem_append_left _ (List.mem_map_of_mem _ hc)
  · rw [hw]
    exact List.mem_append_left _ (List.mem_map_of_mem _ hmem)
  · rw [hw]
    exact List.mem_append_right _ (by simp)

/-- C10 witness: two registered connections, connection 7 sends. -/
theorem broadcast_includes_sender_witness :
    (7, messageFrame "u" "n" mHi) ∈
      handleSendMessage [7, 8] 7 "u" "n" "t1" "hi" "m" 0 ∧
    (7, ackFrame "t1" mHi.messageID "success" "") ∈
      handleSendMessage [7, 8] 7 "u" "n" "t1" "hi" "m" 0 :=
  (broadcast_includes_sender [7, 8] 7 "u" "n" "t1" "hi" "m" 0
    (by decide) (by decide) mHi eHi rfl).2

/-!
## C1: drain re-run on already-persisted identifiers
-/

/-- C1 evidence.  BatchInsert is a plain CreateInBatches against the
unique index on message_id: re-running the drain over a WAL entry whose
stable id is already stored makes the insert fail, so the cycle aborts
and the WAL is never compacted, instead of the claimed idempotent no-op
followed by compaction. -/
theorem drain_fails_on_duplicate_stable_id :
    batchInsert storeDup (walDup.map entryToMessage) = .error () ∧
    processBatch ⟨storeDup, walDup⟩ = ⟨storeDup, walDup⟩ ∧
    walCleanup walDup (walDup.map (fun e => e.messageID)) = [] ∧
    walDup ≠ [] := by
  refine ⟨rfl, rfl, rfl, by decide⟩

/-!
## C4: cache warm-up order on a cold read
-/

/-- C4 evidence.  On a cache miss the service returns the store rows
newest-first and warms the cache by pushing them in that same iteration
order; since each push is an LPUSH, the warmed cache ends with the
oldest message at the head, and a subsequent cache read returns the
messages oldest-first, not newest-first. -/
theorem warmup_reverses_cache_order :
    (serviceGetRecent [] [mOld, mNew] 100).1 = [mNew, mOld] ∧
    (serviceGetRecent [] [mOld, mNew] 100).2 = [mOld, mNew] ∧
    (serviceGetRecent [] [mOld, mNew] 100).2.head? = some mOld ∧
    mOld.createdAt < mNew.createdAt ∧
    mOld ≠ mNew ∧
    cacheRecent (serviceGetRecent [] [mOld, mNew] 100).2 100 = [mOld, mNew] := by
  refine ⟨rfl, rfl, rfl, by decide, by decide, rfl⟩

/-!
## C8: rate-limit window
-/

theorem checkLimit_none (cfg : RateLimiterConfig) (t : Nat) :
    checkLimit cfg t none = freshCheck cfg t :=
  rfl

theorem checkLimit_some (cfg : RateLimiterConfig) (t c exp : Nat) :
    checkLimit cfg t (some (c, exp)) =
      if t < exp then
        if cfg.maxRequests < c + 1 then ((false, exp - t), some (c + 1, exp))
        else ((true, 0), some (c + 1, exp))
      else freshCheck cfg t :=
  rfl

theorem runChecks_state (cfg : RateLimiterConfig) (times : Nat → Nat) (n : Nat)
    (hn : 1 ≤ n) (h : ∀ i, i < n → times i < times 0 + cfg.window) :
    runChecks cfg times n = some (n, times 0 + cfg.window) := by
  induction n with
  | zero => omega
  | succ k ih =>
    cases k with
    | zero =>
      show (checkLimit cfg (times 0) none).2 = some (1, times 0 + cfg.window)
      rw [checkLimit_none]
      unfold freshCheck
      split <;> rfl
    | succ j =>
      have hst := ih (by omega) (fun i hi => h i (by omega))
      have ht : times (j + 1) < times 0 + cfg.window := h _ (by omega)
      show (checkLimit cfg (times (j + 1)) (runChecks cfg times (j + 1))).2 =
        some (j + 2, times 0 + cfg.window)
      rw [hst, checkLimit_some, if_pos ht]
      split <;> rfl

/-- C8.  For one fixed address, with every check arriving inside the
window opened by the first check: the first MaxRequests checks are
admitted, every later check is refused with a retry-after equal to the
remaining TTL of the window counter, and once the window TTL has
expired admission resumes. -/
theorem rate_limit_window (cfg : RateLimiterConfig) (times : Nat → Nat) (n : Nat)
    (h : ∀ i, i < n → times i < times 0 + cfg.window) :
    (∀ i, i < n → i < cfg.maxRequests →
      (checkLimit cfg (times i) (runChecks cfg times i)).1 = (true, 0)) ∧
    (∀ i, i < n → cfg.maxRequests ≤ i →
      (checkLimit cfg (times i) (runChecks cfg times i)).1 =
        (false, times 0 + cfg.window - times i)) ∧
    (∀ t, times 0 + cfg.window ≤ t → 1 ≤ cfg.maxRequests →
      (checkLimit cfg t (runChecks cfg times n)).1 = (true, 0)) := by
  refine ⟨?_, ?_, ?_⟩
  · intro i hin himax
    cases i with
    | zero =>
      show (checkLimit cfg (times 0) none).1 = (true, 0)
      rw [checkLimit_none]
      unfold freshCheck
      rw [if_neg (by omega)]
    | succ j =>
      have hst := runChecks_state cfg times (j + 1) (by omega)
        (fun i hi => h i (by omega))
      have ht : times (j + 1) < times 0 + cfg.window := h _ hin
      rw [hst, checkLimit_some, if_pos ht, if_neg (by omega)]
  · intro i hin himax
    cases i with
    | zero =>
      show (checkLimit cfg (times 0) none).1 =
        (false, times 0 + cfg.window - times 0)
      rw [checkLimit_none]
      unfold freshCheck
      rw [if_pos (by omega)]
    | succ j =>
      have hst := runChecks_state cfg times (j + 1) (by omega)
        (fun i hi => h i (by omega))
      have ht : times (j + 1) < times 0 + cfg.window := h _ hin
      rw [hst, checkLimit_some, if_pos ht, if_pos (by omega)]
  · intro t htexp hmax
    cases n with
    | zero =>
      show (checkLimit cfg t none).1 = (true, 0)
      rw [checkLimit_none]
      unfold freshCheck
      rw [if_neg (by omega)]
    | succ k =>
      have hst := runChecks_state cfg times (k + 1) (by omega) h
      rw [hst, checkLimit_some, if_neg (by omega)]
      unfold freshCheck
      rw [if_neg (by omega)]

/-- C8 witness: MaxRequests 2, window 60, checks at times 0, 1, 2; the
third check is refused with retry-after 58; a check at time 60 is
admitted again. -/
theorem rate_limit_window_witness :
    (checkLimit ⟨2, 60⟩ 0 (runChecks ⟨2, 60⟩ (fun i => i) 0)).1 = (true, 0) ∧
    (checkLimit ⟨2, 60⟩ 1 (runChecks ⟨2, 60⟩ (fun i => i) 1)).1 = (true, 0) ∧
    (checkLimit ⟨2, 60⟩ 2 (runChecks ⟨2, 60⟩ (fun i => i) 2)).1 = (false, 58) ∧
    (checkLimit ⟨2, 60⟩ 60 (runChecks ⟨2, 60⟩ (fun i => i) 3)).1 = (true, 0) := by
  have h := rate_limit_window ⟨2, 60⟩ (fun i => i) 3
    (by intro i hi; show i < 0 + 60; omega)
  exact ⟨h.1 0 (by omega) (by decide), h.1 1 (by omega) (by decide),
    h.2.1 2 (by omega) (by decide), h.2.2 60 (by decide) (by decide)⟩

/-!
## C5: pagination window
-/

theorem insertTimeDesc_perm (m : Message) (l : List Message) :
    (insertTimeDesc m l).Perm (m :: l) := by
  induction l with
  | nil => exact List.Perm.refl _
  | cons x xs ih =>
    unfold insertTimeDesc
    split
    · exact (ih.cons x).trans (List.Perm.swap m x xs)
    · exact List.Perm.refl _

theorem sortTimeDesc_perm (l : List Message) : (sortTimeDesc l).Perm l := by
  induction l with
  | nil => exact List.Perm.refl _
  | cons x xs ih =>
    exact (insertTimeDesc_perm x (sortTimeDesc xs)).trans (ih.cons x)

theorem insertTimeDesc_pairwise (m : Message) (l : List Message)
    (h : l.Pairwise (fun a b => b.createdAt ≤ a.createdAt)) :
    (insertTimeDesc m l).Pairwise (fun a b => b.createdAt ≤ a.createdAt) := by
  induction l with
  | nil => simp [insertTimeDesc]
  | cons x xs ih =>
    rcases List.pairwise_cons.mp h with ⟨hx, hxs⟩
    unfold insertTimeDesc
    split
    · rename_i hle
      refine List.pairwise_cons.mpr ⟨?_, ih hxs⟩
      intro y hy
      have hy2 := (insertTimeDesc_perm m xs).mem_iff.mp hy
      rcases List.mem_cons.mp hy2 with rfl | hyxs
      · exact hle
      · exact hx y hyxs
    · rename_i hgt
      refine List.pairwise_cons.mpr ⟨?_, h⟩
      intro y hy
      rcases List.mem_cons.mp hy with rfl | hyxs
      · omega
      · exact le_trans (hx y hyxs) (by omega)

theorem sortTimeDesc_pairwise (l : List Message) :
    (sortTimeDesc l).Pairwise (fun a b => b.createdAt ≤ a.createdAt) := by
  induction l with
  | nil => simp [sortTimeDesc]
  | cons x xs ih => exact insertTimeDesc_pairwise x _ ih

theorem sortTimeDesc_pairwise_id (tbl l : List Message)
    (hsub : ∀ x ∈ l, x ∈ tbl)
    (hnodup : (l.map Message.id).Nodup)
    (hmono : ∀ a, a ∈ tbl → ∀ b, b ∈ tbl →
      (a.id < b.id ↔ a.createdAt < b.createdAt)) :
    (sortTimeDesc l).Pairwise (fun a b => b.id < a.id) := by
  have hperm := sortTimeDesc_perm l
  have hnd : ((sortTimeDesc l).map Message.id).Nodup :=
    (hperm.map Message.id).nodup_iff.mpr hnodup
  have hne : (sortTimeDesc l).Pairwise (fun a b => a.id ≠ b.id) :=
    List.pairwise_map.mp hnd
  have hcomb := (sortTimeDesc_pairwise l).and hne
  refine hcomb.imp_of_mem ?_
  intro a b ha hb hab
  have ha2 : a ∈ tbl := hsub a (hperm.mem_iff.mp ha)
  have hb2 : b ∈ tbl := hsub b (hperm.mem_iff.mp hb)
  rcases hab with ⟨hle, hne2⟩
  have h1 := hmono a ha2 b hb2
  have hnotlt : ¬ a.createdAt < b.createdAt := by omega
  have hnotid : ¬ a.id < b.id := fun hlt => hnotlt (h1.mp hlt)
  omega

/-- C5, amended.  For every cursor seq and limit k, the page returned by
GetMessagesBefore contains only visible stored rows with internal
sequence strictly below seq, has at most k rows, and is ordered
newest-first by creation time.  Provided the table's creation times are
strictly monotone in the internal sequence (and sequence numbers are
unique), the page is also a contiguous window of the sequence ordering:
no visible row below the cursor whose sequence is at least that of some
returned row is skipped.  Without that proviso contiguity can fail,
because the query orders by created_at, not by sequence. -/
theorem pagination_window (tbl : List Message) (seq k : Nat)
    (hnodup : (tbl.map Message.id).Nodup)
    (hmono : ∀ a, a ∈ tbl → ∀ b, b ∈ tbl →
      (a.id < b.id ↔ a.createdAt < b.createdAt)) :
    (∀ m ∈ getMessagesBefore tbl seq k,
       m.id < seq ∧ m.deletedAt = none ∧ m ∈ tbl) ∧
    (getMessagesBefore tbl seq k).length ≤ k ∧
    (getMessagesBefore tbl seq k).Pairwise
      (fun a b => b.createdAt ≤ a.createdAt) ∧
    (∀ r ∈ tbl, r.deletedAt = none → r.id < seq →
      (∃ m ∈ getMessagesBefore tbl seq k, m.id ≤ r.id) →
      r ∈ getMessagesBefore tbl seq k) := by
  have hFsub : ∀ x ∈ tbl.filter
      (fun m => m.deletedAt.isNone && decide (m.id < seq)), x ∈ tbl :=
    fun x hx => (List.mem_filter.mp hx).1
  have hFnodup : ((tbl.filter
      (fun m => m.deletedAt.isNone && decide (m.id < seq))).map
        Message.id).Nodup :=
    hnodup.sublist ((List.filter_sublist tbl).map Message.id)
  have hperm := sortTimeDesc_perm
    (tbl.filter (fun m => m.deletedAt.isNone && decide (m.id < seq)))
  have hidp := sortTimeDesc_pairwise_id tbl _ hFsub hFnodup hmono
  have hgmb : getMessagesBefore tbl seq k =
      (sortTimeDesc (tbl.filter
        (fun m => m.deletedAt.isNone && decide (m.id < seq)))).take k := rfl
  refine ⟨?_, ?_, ?_, ?_⟩
  · intro m hm
    rw [hgmb] at hm
    have hmL := (List.take_sublist k _).subset hm
    have hmF := hperm.mem_iff.mp hmL
    have hmf := List.mem_filter.mp hmF
    have hb := hmf.2
    simp only [Bool.and_eq_true, decide_eq_true_eq] at hb
    exact ⟨hb.2, Option.isNone_iff_eq_none.mp hb.1, hmf.1⟩
  · rw [hgmb]
    exact List.length_take_le k _
  · rw [hgmb]
    exact List.Pairwise.sublist (List.take_sublist k _) (sortTimeDesc_pairwise _)
  · rintro r hr hdel hlt ⟨m, hm, hmle⟩
    have hrF : r ∈ tbl.filter
        (fun m => m.deletedAt.isNone && decide (m.id < seq)) :=
      List.mem_filter.mpr ⟨hr, by simp [hdel, hlt]⟩
    have hrL := hperm.mem_iff.mpr hrF
    rw [← List.take_append_drop k (sortTimeDesc (tbl.filter
      (fun m => m.deletedAt.isNone && decide (m.id < seq))))] at hrL hidp
    have hparts := List.pairwise_append.mp hidp
    rcases List.mem_append.mp hrL with h1 | h2
    · rw [hgmb]
      exact h1
    · exfalso
      rw [hgmb] at hm
      have := hparts.2.2 m hm r h2
      omega

/-- C5 witness: a table whose creation times follow the sequence
order. -/
theorem pagination_window_witness :
    wRowB.id < 3 ∧ wRowB.deletedAt = none ∧ wRowB ∈ [wRowA, wRowB, wRowC] :=
  (pagination_window [wRowA, wRowB, wRowC] 3 2 (by decide) (by decide)).1
    wRowB (by decide)

/-- C5 counterexample: rows whose creation times disagree with their
sequence order.  All three rows are visible and below the cursor 4; the
page of size 2 is the newest-two by creation time, rows with sequence 1
and 3; row with sequence 2 lies inside the returned sequence range
(the page contains sequence 1, which is at most 2) but is skipped, so
the page is not a contiguous window of the sequence ordering. -/
theorem pagination_counterexample :
    getMessagesBefore [rowA, rowB, rowC] 4 2 = [rowA, rowC] ∧
    rowB ∈ [rowA, rowB, rowC] ∧
    rowB.deletedAt = none ∧
    rowB.id < 4 ∧
    rowA ∈ getMessagesBefore [rowA, rowB, rowC] 4 2 ∧
    rowA.id ≤ rowB.id ∧
    rowB ∉ getMessagesBefore [rowA, rowB, rowC] 4 2 := by
  refine ⟨rfl, by decide, rfl, by decide, by decide, by decide, by decide⟩
